import Mathlib

set_option maxRecDepth 8192

/-! Shallow embedding of sql.py from the scrapyext repository: the
SQLPipeline statement template engine, the reconnecting connection pool
wrapper, the deferred completion chain of process_item and the
per-record insert-then-update transaction protocol. -/

instance [DecidableEq ε] [DecidableEq α] : DecidableEq (Except ε α) := fun x y =>
  match x, y with
  | .ok a, .ok b => if h : a = b then .isTrue (by rw [h]) else .isFalse (by simp [h])
  | .error a, .error b =>
    if h : a = b then .isTrue (by rw [h]) else .isFalse (by simp [h])
  | .ok _, .error _ => .isFalse (by simp)
  | .error _, .ok _ => .isFalse (by simp)

/-- Scalar values carried by item fields. -/
inductive SQLValue where
  | vint (n : Int)
  | vstr (s : String)
deriving DecidableEq, Repr

/-- Embedding of an SQLItem: the declared fields with their UniqueField
flag (item.fields), the populated entries in item order, the declared
table name (the __tablename__ attribute) and the class name fallback. -/
structure SQLRecord where
  tablename : List Char
  className : List Char
  fields : List (List Char × Bool)
  entries : List (List Char × SQLValue)
deriving DecidableEq, Repr

/-- Populated field names, in item order, as item.keys() yields them. -/
def SQLRecord.keys (r : SQLRecord) : List (List Char) := r.entries.map Prod.fst

/-- Populated field values, in item order, as item.values() yields them. -/
def SQLRecord.vals (r : SQLRecord) : List SQLValue := r.entries.map Prod.snd

/-- Characters matched by the regex class [a-z_] for entity names. -/
def isEntityChar (c : Char) : Bool :=
  (decide ('a' ≤ c) && decide (c ≤ 'z')) || c == '_'

/-- Characters matched by the regex class of modifier arguments
(word characters or comma, under the ASCII default of Python 2 re). -/
def isArgChar (c : Char) : Bool := c.isAlpha || c.isDigit || c == '_' || c == ','

/-- ASCII lowercasing, as str.lower acts on the template prefix. -/
def pyLower (c : Char) : Char :=
  if 'A' ≤ c ∧ c ≤ 'Z' then Char.ofNat (c.toNat + 32) else c

/-- ASCII uppercasing, as str.upper acts on joiner modifiers. -/
def pyUpper (c : Char) : Char :=
  if 'a' ≤ c ∧ c ≤ 'z' then Char.ofNat (c.toNat - 32) else c

/-- Decimal digits of a natural number, least significant digit folded
last, written with explicit fuel so that it is structural; mirrors the
str(value) call inside paramformat. -/
def natDigsGo : Nat → Nat → List Char → List Char
  | 0, _, acc => acc
  | fuel + 1, n, acc =>
    if n < 10 then Char.ofNat (48 + n % 10) :: acc
    else natDigsGo fuel (n / 10) (Char.ofNat (48 + n % 10) :: acc)

/-- Decimal rendering of a natural number, as Python str produces it. -/
def natDigs (n : Nat) : List Char := natDigsGo (n + 1) n []

/-- Python str.join on a separator: parts concatenated with the
separator between consecutive parts. -/
def joinSep (sep : List Char) : List (List Char) → List Char
  | [] => []
  | [x] => x
  | x :: y :: xs => x ++ sep ++ joinSep sep (y :: xs)

/-- Python enumerate, pairing each element with its index from i. -/
def withIdx (i : Nat) : List α → List (Nat × α)
  | [] => []
  | x :: xs => (i, x) :: withIdx (i + 1) xs

/-- Identifier escaping: the format string that wraps a name in the
identifier quote character on both sides. -/
def quoteId (idq s : List Char) : List Char := idq ++ s ++ idq

/-- The paramformat closure of _sql_format: question-mark and
percent-s styles yield a bare marker, any other style appends the
running number to the style prefix. -/
def paramformat (ps : List Char) (i : Nat) : List Char :=
  if ps = ['?'] ∨ ps = ['%', 's'] then ps else ps ++ natDigs i

/-- One parsed piece of a template: a literal character, or one match of
the placeholder regex with the entity letters after the dollar sign and
the optional modifier letters after the colon. -/
inductive Seg where
  | lit (c : Char)
  | ph (ent : List Char) (args : Option (List Char))
deriving DecidableEq, Repr

/-- The exact template text a segment stands for; for a placeholder
match this is the text the regex matched. -/
def segText : Seg → List Char
  | .lit c => [c]
  | .ph ent none => '$' :: ent
  | .ph ent (some a) => '$' :: (ent ++ ':' :: a)

/-- Concatenation of the segment texts. -/
def segsJoin (segs : List Seg) : List Char := (segs.map segText).flatten

/-- Left-to-right scan of the template for the placeholder regex:
a dollar sign followed by a nonempty greedy run of entity characters,
optionally followed by a colon and a nonempty greedy run of argument
characters; positions that match nothing are literal text.  The fuel
argument makes the recursion structural; it is always ample. -/
def scanGo : Nat → List Char → List Seg
  | 0, _ => []
  | _, [] => []
  | fuel + 1, c :: rest =>
    if c = '$' then
      let ent := rest.takeWhile isEntityChar
      if ent.isEmpty then .lit '$' :: scanGo fuel rest
      else
        match rest.dropWhile isEntityChar with
        | ':' :: rest3 =>
          let args := rest3.takeWhile isArgChar
          if args.isEmpty then .ph ent none :: scanGo fuel (':' :: rest3)
          else .ph ent (some args) :: scanGo fuel (rest3.dropWhile isArgChar)
        | rest2 => .ph ent none :: scanGo fuel rest2
    else .lit c :: scanGo fuel rest

/-- All regex pieces of a template, as finditer traverses it. -/
def scanTemplate (l : List Char) : List Seg := scanGo (l.length + 1) l

/-- The placeholder matches of a template in order, each as its entity
letters together with the optional modifier letters. -/
def phMatches (segs : List Seg) : List (List Char × Option (List Char)) :=
  segs.filterMap fun s =>
    match s with
    | .ph e a => some (e, a)
    | .lit _ => none

/-- The text m.group() of one placeholder match. -/
def matchText (e : List Char) (a : Option (List Char)) : List Char :=
  segText (.ph e a)

/-- Python str.replace with count one: replace the leftmost occurrence
of pat, leaving the string unchanged when pat does not occur. -/
def replaceFirst : List Char → List Char → List Char → List Char
  | [], pat, repl => if pat.isEmpty then repl else []
  | c :: rest, pat, repl =>
    if pat.isPrefixOf (c :: rest) then repl ++ (c :: rest).drop pat.length
    else c :: replaceFirst rest pat repl

/-- Python substring membership, needle in haystack. -/
def isSubstrOf (needle : List Char) : List Char → Bool
  | [] => needle.isEmpty
  | c :: rest => needle.isPrefixOf (c :: rest) || isSubstrOf needle rest

/-- The two errors _sql_format raises: the missing UniqueField value
error and the invalid magic entity error (both ValueError in source). -/
inductive SQLError where
  | missingIdentity (f : List Char)
  | invalidEntity (e : List Char)
deriving DecidableEq, Repr

/-- The data the expansion loop of _sql_format closes over: parameter
style, identifier quote, resolved table name, the escaped populated
field names, the escaped present unique field names, and the two value
lists the magic fields append. -/
structure ExpandCtx where
  ps : List Char
  idq : List Char
  tablename : List Char
  itemfields : List (List Char)
  itemkeys : List (List Char)
  vals : List SQLValue
  ivals : List SQLValue
deriving DecidableEq, Repr

/-- Joiner text: a bare comma without a modifier, otherwise the modifier
uppercased and wrapped in single spaces. -/
def joinAttr (args : List Char) : List Char :=
  if args.isEmpty then [','] else (' ' :: args.map pyUpper) ++ [' ']

/-- One branch dispatch of the expansion loop body: given the entity
letters and the modifier letters, the replacement text and the values
it appends, or the invalid entity error. -/
def evalEntity (ctx : ExpandCtx) (e args : List Char) :
    Except SQLError (List Char × List SQLValue) :=
  if e = "table".toList then
    .ok (if args.take 3 = "esc".toList then quoteId ctx.idq ctx.tablename
         else ctx.tablename, [])
  else if e = "fields".toList then
    .ok (joinSep (joinAttr args) ctx.itemfields, [])
  else if e = "values".toList then
    .ok (joinSep (joinAttr args)
      ((withIdx 0 ctx.itemfields).map fun p => paramformat ctx.ps p.1), ctx.vals)
  else if e = "fields_values".toList then
    .ok (joinSep (joinAttr args)
      ((withIdx 0 ctx.itemfields).map fun p => p.2 ++ '=' :: paramformat ctx.ps p.1),
      ctx.vals)
  else if e = "indices".toList ∨ e = "indexes".toList then
    .ok (joinSep (joinAttr args)
      ((withIdx 0 ctx.itemkeys).map fun p => p.2 ++ '=' :: paramformat ctx.ps p.1),
      ctx.ivals)
  else .error (.invalidEntity ('$' :: e))

/-- The replacement loop of _sql_format: each match in template order is
evaluated, substituted once into the working statement, and its values
are appended to the parameter list. -/
def sqlLoop (ctx : ExpandCtx) :
    List (List Char × Option (List Char)) → List Char → List SQLValue →
    Except SQLError (List Char × List SQLValue)
  | [], prepared, acc => .ok (prepared, acc)
  | (e, a) :: ms, prepared, acc =>
    match evalEntity ctx e (a.getD []) with
    | .error err => .error err
    | .ok (field, value) =>
      sqlLoop ctx ms (replaceFirst prepared (matchText e a) field) (acc ++ value)

/-- The _sql_format function: resolve the table name, collect declared
unique fields, run the missing identity check unless the first six
lowercased characters of the query occur inside the word select, order
the present unique fields by item order, and expand every placeholder
match. -/
def sql_format (query : List Char) (item : SQLRecord) (ps idq : List Char) :
    Except SQLError (List Char × List SQLValue) :=
  let tablename := if item.tablename.isEmpty then item.className else item.tablename
  let indices0 := (item.fields.filter Prod.snd).map Prod.fst
  let missing :=
    if isSubstrOf ((query.take 6).map pyLower) "select".toList then []
    else indices0.filter fun v => !(item.keys.contains v)
  match missing with
  | v :: _ => .error (.missingIdentity v)
  | [] =>
    let indices := item.keys.filter fun k => indices0.contains k
    let ctx : ExpandCtx :=
      { ps := ps
        idq := idq
        tablename := tablename
        itemfields := item.keys.map (quoteId idq)
        itemkeys := indices.map (quoteId idq)
        vals := item.vals
        ivals := (item.entries.filter fun kv => indices.contains kv.1).map Prod.snd }
    sqlLoop ctx (phMatches (scanTemplate query)) query []

/-- The record of the spec scenarios: table items, unique field id with
value one, plain field name with value x. -/
def itemA : SQLRecord :=
  { tablename := "items".toList
    className := "MyItem".toList
    fields := [("id".toList, true), ("name".toList, false)]
    entries := [("id".toList, .vint 1), ("name".toList, .vstr "x")] }

example :
    sql_format "INSERT INTO $table:esc ($fields) VALUES ($values)".toList
      itemA [':'] ['"'] =
    .ok ("INSERT INTO \"items\" (\"id\",\"name\") VALUES (:0,:1)".toList,
      [.vint 1, .vstr "x"]) := by decide

example :
    sql_format "UPDATE $table:esc SET $fields_values WHERE $indices:and".toList
      itemA [':'] ['"'] =
    .ok ("UPDATE \"items\" SET \"id\"=:0,\"name\"=:1 WHERE \"id\"=:0".toList,
      [.vint 1, .vstr "x", .vint 1]) := by decide

/-! Connection pool wrapper, pipeline construction, the process_item
deferred chain and the per-record transaction protocol. -/

/-- Exceptions the MySQL driver can raise into _runInteraction: an
OperationalError carrying its numeric error code, or any other
exception, which the except clause does not catch. -/
inductive MySQLExc where
  | operational (code : Nat)
  | otherExc
deriving DecidableEq, Repr

/-- Pool state: the per-thread connection map of the adbapi pool, as
an association of thread identifier to connection identifier. -/
structure PoolState where
  connections : List (Nat × Nat)
deriving DecidableEq, Repr

/-- The _runInteraction override of ReconnectingConnectionPool: run the
base interaction; on an OperationalError with one of the three
whitelisted codes, drop the connection of the calling thread and run
the base interaction a second time, whose outcome is returned as is;
every other failure of the first run propagates unchanged.  The two
possible runs of the base method are given as att1 and att2. -/
def runInteractionR (st : PoolState) (tid : Nat)
    (att1 att2 : Except MySQLExc α) : Except MySQLExc α × PoolState :=
  match att1 with
  | .ok a => (.ok a, st)
  | .error e =>
    match e with
    | .operational code =>
      if code ∈ [2006, 2013, 1213] then
        (att2, { connections := st.connections.filter fun p => p.1 ≠ tid })
      else (.error e, st)
    | .otherExc => (.error e, st)

/-- Exceptions of the dbapi driver as the transaction protocol
classifies them: IntegrityError, OperationalError, anything else. -/
inductive PyExc where
  | integrity
  | operational
  | otherE
deriving DecidableEq, Repr, Fintype

/-- Outcome of one run of SQLPipeline.transaction: the exception it
re-raises if any, whether the update statement was attempted, and
whether the failed-executing warning was logged. -/
structure TxnOutcome where
  error : Option PyExc
  updateAttempted : Bool
  warnLogged : Bool
deriving DecidableEq, Repr

/-- The transaction method: execute the insert; on IntegrityError
execute the update, where an OperationalError is logged as a warning
and re-raised while any other exception propagates uncaught; any
non-integrity insert exception propagates at once.  The arguments are
the exceptions the two execute calls would raise, none meaning
success. -/
def transactionProto (ins upd : Option PyExc) : TxnOutcome :=
  match ins with
  | none => ⟨none, false, false⟩
  | some .integrity =>
    match upd with
    | none => ⟨none, true, false⟩
    | some .operational => ⟨some .operational, true, true⟩
    | some e => ⟨some e, true, false⟩
  | some e => ⟨some e, false, false⟩

/-- The two connection pool classes the module can name: the plain
twisted adbapi ConnectionPool, and the ReconnectingConnectionPool
subclass defined at the top of the module. -/
inductive PoolKind where
  | plain
  | reconnecting
deriving DecidableEq, Repr

/-- Backend profile resolved by SQLPipeline.__init__: which pool class
the pipeline instantiates, the parameter style and the identifier
quote. -/
structure PipelineConfig where
  poolKind : PoolKind
  paramstyle : List Char
  identifier : List Char
deriving DecidableEq, Repr

/-- SQLPipeline.__init__ per driver name: every recognized backend
instantiates the plain ConnectionPool; sqlite keeps the default colon
parameter style and double-quote identifier, pgsql switches to the
percent-s style, mysql switches to the percent-s style and backtick
identifier; an unrecognized driver assigns no pool at all. -/
def pipelineInit (drivername : String) : Option PipelineConfig :=
  if drivername = "sqlite" then some ⟨.plain, [':'], ['"']⟩
  else if drivername = "pgsql" then some ⟨.plain, "%s".toList, ['"']⟩
  else if drivername = "mysql" then some ⟨.plain, "%s".toList, ['`']⟩
  else none

/-- Items flowing through process_item: an SQLItem or anything else. -/
inductive PItem where
  | sql (r : SQLRecord)
  | nonsql (tag : Nat)
deriving DecidableEq, Repr

/-- Observable actions of process_item: expanding a template through
_sql_format, and submitting the transaction as one interaction to the
connection pool. -/
inductive PipelineEffect where
  | expandTemplate (q : String)
  | submitInteraction
deriving DecidableEq, Repr

/-- What process_item hands back synchronously: the item itself for a
non SQLItem, or the deferred of the submitted interaction. -/
inductive ProcessReturn where
  | passthrough (it : PItem)
  | submitted (r : SQLRecord)
deriving DecidableEq, Repr

/-- The process_item method: anything that is not an SQLItem is
returned unchanged at once; for an SQLItem the insert and update
templates are expanded (a formatting error propagates before any pool
work), then the transaction is submitted as a single interaction. -/
def process_item (insertT updateT : String) (ps idq : List Char)
    (item : PItem) : Except SQLError ProcessReturn × List PipelineEffect :=
  match item with
  | .nonsql t => (.ok (.passthrough (.nonsql t)), [])
  | .sql r =>
    match sql_format insertT.toList r ps idq with
    | .error e => (.error e, [.expandTemplate insertT])
    | .ok _ =>
      match sql_format updateT.toList r ps idq with
      | .error e => (.error e, [.expandTemplate insertT, .expandTemplate updateT])
      | .ok _ =>
        (.ok (.submitted r),
         [.expandTemplate insertT, .expandTemplate updateT, .submitInteraction])

/-- Values travelling down the deferred callback chain of process_item:
the None a callback or errback returns, or the item itself. -/
inductive PyVal where
  | pynone
  | pyitem (it : PItem)
deriving DecidableEq, Repr

/-- An errback in twisted: on success it is skipped; on failure its
handler runs and its non-failure return value makes the deferred
succeed again; the handler also reports what it logged. -/
def addErrbackLog (d : Except PyExc PyVal)
    (h : PyExc → Except PyExc PyVal × List PyExc) :
    Except PyExc PyVal × List PyExc :=
  match d with
  | .ok v => (.ok v, [])
  | .error e => h e

/-- An addBoth callback: it runs on the current result whether it is a
success or a failure, and its return value is the new result. -/
def addBothD (d : Except PyExc PyVal)
    (f : Except PyExc PyVal → Except PyExc PyVal) : Except PyExc PyVal :=
  f d

/-- The _database_error errback: it logs the failure and implicitly
returns None, which consumes the failure. -/
def database_error (e : PyExc) : Except PyExc PyVal × List PyExc :=
  (.ok .pynone, [e])

/-- The completion chain process_item installs on the interaction
deferred: addErrback(self._database_error, item, spider) followed by
addBoth(lambda underscore: item). -/
def process_item_completion (txn : Except PyExc PyVal) (item : PItem) :
    Except PyExc PyVal × List PyExc :=
  let step1 := addErrbackLog txn database_error
  (addBothD step1.1 fun _ => .ok (.pyitem item), step1.2)

example :
    process_item_completion (.error .operational) (.nonsql 7) =
      (.ok (.pyitem (.nonsql 7)), [.operational]) := by decide

example :
    runInteractionR ⟨[(1, 10), (2, 20)]⟩ 1 (.error (.operational 2006)) (.ok 5) =
      (.ok 5, ⟨[(2, 20)]⟩) := by decide

/-- A record whose declared unique field id has no populated value. -/
def itemM : SQLRecord :=
  { tablename := "items".toList
    className := "MyItem".toList
    fields := [("id".toList, true), ("name".toList, false)]
    entries := [("name".toList, .vstr "x")] }

/-- C1 counterexample: the mysql branch of SQLPipeline.__init__
instantiates the plain ConnectionPool, not ReconnectingConnectionPool,
so the interaction does not run on a pool with the claimed transient
retry behaviour. -/
theorem mysql_pool_is_plain_counterexample :
    (pipelineInit "mysql").map PipelineConfig.poolKind = some PoolKind.plain ∧
    PoolKind.plain ≠ PoolKind.reconnecting := by decide

/-- C1 amended: for every recognized backend the per-record upsert
protocol is submitted as exactly one interaction, but the pool it runs
on is the plain ConnectionPool; the ReconnectingConnectionPool class is
defined in the module yet never instantiated, so its retry policy is
not in effect. -/
theorem upsert_single_interaction_plain_pool :
    ∀ d : String, d ∈ ["sqlite", "pgsql", "mysql"] →
      (∃ cfg : PipelineConfig, pipelineInit d = some cfg ∧ cfg.poolKind = .plain) ∧
      ∀ (insertT updateT : String) (ps idq : List Char) (r : SQLRecord)
        (out : ProcessReturn) (effs : List PipelineEffect),
        process_item insertT updateT ps idq (.sql r) = (.ok out, effs) →
        effs.count .submitInteraction = 1 := by
  intro d hd
  constructor
  · simp only [List.mem_cons, List.mem_singleton] at hd
    rcases hd with h | h | h | h
    · exact h.symm ▸ ⟨_, rfl, rfl⟩
    · exact h.symm ▸ ⟨_, rfl, rfl⟩
    · exact h.symm ▸ ⟨_, rfl, rfl⟩
    · exact absurd h (by simp)
  · intro insertT updateT ps idq r out effs h
    simp only [process_item] at h
    split at h
    · simp [Prod.mk.injEq] at h
    · split at h
      · simp [Prod.mk.injEq] at h
      · rw [Prod.mk.injEq] at h
        rw [← h.2]
        simp [List.count_cons, List.count_nil]

/-- C1 witness: applying the amended statement to the mysql backend and
a concrete record. -/
theorem upsert_single_interaction_plain_pool_witness :
    (∃ cfg : PipelineConfig, pipelineInit "mysql" = some cfg ∧ cfg.poolKind = .plain) ∧
    ([PipelineEffect.expandTemplate "INSERT INTO $table:esc ($fields) VALUES ($values)",
      PipelineEffect.expandTemplate "UPDATE $table:esc SET $fields_values WHERE $indices:and",
      PipelineEffect.submitInteraction].count .submitInteraction = 1) := by
  have h := upsert_single_interaction_plain_pool "mysql" (by decide)
  exact ⟨h.1, h.2 "INSERT INTO $table:esc ($fields) VALUES ($values)"
    "UPDATE $table:esc SET $fields_values WHERE $indices:and" [':'] ['"'] itemA
    (.submitted itemA) _ (by decide)⟩

/-- C2 counterexample: when the fallback update raises an
IntegrityError, the transaction re-raises it but does not log the
failed-executing warning, against the claim that any update error is
logged and re-raised. -/
theorem update_integrity_error_unlogged_counterexample :
    (transactionProto (some .integrity) (some .integrity)).error = some .integrity ∧
    (transactionProto (some .integrity) (some .integrity)).updateAttempted = true ∧
    (transactionProto (some .integrity) (some .integrity)).warnLogged = false := by
  decide

/-- C2 amended: the update runs exactly when the insert raises an
IntegrityError; a non-integrity insert error propagates at once with no
update; a successful update completes the record; every update error is
re-raised, but only an OperationalError is logged first. -/
theorem transaction_protocol_characterization :
    ∀ ins upd : Option PyExc,
      ((transactionProto ins upd).updateAttempted = true ↔ ins = some .integrity) ∧
      (ins = none → transactionProto ins upd = ⟨none, false, false⟩) ∧
      (∀ e, e ≠ PyExc.integrity → ins = some e →
        transactionProto ins upd = ⟨some e, false, false⟩) ∧
      (ins = some .integrity → upd = none →
        transactionProto ins upd = ⟨none, true, false⟩) ∧
      (ins = some .integrity → ∀ e, upd = some e →
        (transactionProto ins upd).error = some e ∧
        ((transactionProto ins upd).warnLogged = true ↔ e = .operational)) := by
  decide

/-- C2 witness: the amended statement applied to an integrity conflict
followed by an operational failure of the update. -/
theorem transaction_protocol_characterization_witness :
    (transactionProto (some .integrity) (some .operational)).error =
      some PyExc.operational ∧
    ((transactionProto (some .integrity) (some .operational)).warnLogged = true ↔
      PyExc.operational = PyExc.operational) :=
  (transaction_protocol_characterization (some .integrity)
    (some .operational)).2.2.2.2 rfl .operational rfl

/-- C3: a first failure with one of the whitelisted transient codes
drops exactly the calling thread's connection and returns whatever a
single second attempt returns, unmodified; a success or a
non-whitelisted failure of the first attempt is returned at once with
the pool untouched. -/
theorem reconnecting_pool_retry_policy :
    ∀ (st : PoolState) (tid : Nat) (att2 : Except MySQLExc Nat),
      (∀ (v : Nat) (att2b : Except MySQLExc Nat),
        runInteractionR st tid (.ok v) att2b = (.ok v, st)) ∧
      (∀ code, code ∈ [2006, 2013, 1213] →
        runInteractionR st tid (.error (.operational code)) att2 =
          (att2, ⟨st.connections.filter fun p => p.1 ≠ tid⟩)) ∧
      (∀ code, code ∉ [2006, 2013, 1213] →
        runInteractionR st tid (.error (.operational code)) att2 =
          (.error (.operational code), st)) ∧
      (runInteractionR st tid (.error .otherExc) att2 = (.error .otherExc, st)) ∧
      (∀ p, p ∈ (runInteractionR st tid (.error (.operational 2006)) att2).2.connections ↔
        p ∈ st.connections ∧ p.1 ≠ tid) := by
  intro st tid att2
  refine ⟨fun v att2b => rfl, fun code hc => ?_, fun code hc => ?_, rfl, fun p => ?_⟩
  · simp [runInteractionR, hc]
  · simp [runInteractionR, hc]
  · simp [runInteractionR, List.mem_filter]

/-- C3 witness: a deadlock code on the first attempt drops only the
calling thread's connection, and a transient failure of the retry
propagates unmodified. -/
theorem reconnecting_pool_retry_policy_witness :
    runInteractionR ⟨[(3, 30), (4, 40)]⟩ 3 (.error (.operational 1213))
        (.error (.operational 1213) : Except MySQLExc Nat) =
      (.error (.operational 1213), ⟨[(4, 40)]⟩) := by
  have h := (reconnecting_pool_retry_policy ⟨[(3, 30), (4, 40)]⟩ 3
    (.error (.operational 1213))).2.1 1213 (by decide)
  exact h.trans (by decide)

/-- C4 counterexample: scenario A does not produce the claimed
statement, because paramformat numbers markers from zero. -/
theorem scenario_a_markers_counterexample :
    sql_format "INSERT INTO $table:esc ($fields) VALUES ($values)".toList
        itemA [':'] ['"'] ≠
      .ok ("INSERT INTO \"items\" (\"id\",\"name\") VALUES (:1,:2)".toList,
        [.vint 1, .vstr "x"]) := by decide

/-- C4 amended: scenario A expands to the zero-based marker statement
with the claimed parameter list. -/
theorem scenario_a_expansion :
    sql_format "INSERT INTO $table:esc ($fields) VALUES ($values)".toList
        itemA [':'] ['"'] =
      .ok ("INSERT INTO \"items\" (\"id\",\"name\") VALUES (:0,:1)".toList,
        [.vint 1, .vstr "x"]) := by decide

/-- C5 counterexample: scenario B does not produce the claimed
statement; the marker index restarts at each placeholder, so the
markers of different placeholders collide instead of increasing
monotonically. -/
theorem scenario_b_markers_counterexample :
    sql_format "UPDATE $table:esc SET $fields_values WHERE $indices:and".toList
        itemA [':'] ['"'] ≠
      .ok ("UPDATE \"items\" SET \"id\"=:1,\"name\"=:2 WHERE \"id\"=:3".toList,
        [.vint 1, .vstr "x", .vint 1]) := by decide

/-- C5 amended: scenario B expands with a per-placeholder zero-based
counter, so the update and where clauses both use the marker zero. -/
theorem scenario_b_expansion :
    sql_format "UPDATE $table:esc SET $fields_values WHERE $indices:and".toList
        itemA [':'] ['"'] =
      .ok ("UPDATE \"items\" SET \"id\"=:0,\"name\"=:1 WHERE \"id\"=:0".toList,
        [.vint 1, .vstr "x", .vint 1]) := by decide

/-- C6 counterexample: the template lect does not begin with select,
yet its first six lowercased characters occur inside the word select,
so the missing identity check is skipped and expansion succeeds even
though the unique field id has no populated value. -/
theorem select_check_substring_counterexample :
    sql_format "lect".toList itemM [':'] ['"'] = .ok ("lect".toList, []) ∧
    "select".toList.isPrefixOf ("lect".toList.map pyLower) = false ∧
    ("id".toList, true) ∈ itemM.fields ∧
    itemM.keys.contains "id".toList = false := by decide

/-- C7 counterexample: when the interaction fails, the completion
handle is not failed; the error is logged and swallowed and the
deferred still fires with the original item as a success. -/
theorem failure_swallowed_counterexample :
    process_item_completion (.error .otherE) (.nonsql 0) =
      (.ok (.pyitem (.nonsql 0)), [.otherE]) ∧
    (process_item_completion (.error .otherE) (.nonsql 0)).1 ≠
      .error PyExc.otherE := by decide

/-- C7 amended: whatever the interaction outcome, the completion chain
delivers the original record unchanged as a success, with no indication
of which branch ran; a failure is logged by the database error errback
and then swallowed rather than surfaced. -/
theorem process_item_always_returns_item :
    ∀ (txn : Except PyExc PyVal) (item : PItem),
      (process_item_completion txn item).1 = .ok (.pyitem item) ∧
      (process_item_completion txn item).2 =
        (match txn with | .error e => [e] | .ok _ => []) := by
  intro txn item
  rcases txn with v | e <;> exact ⟨rfl, rfl⟩

/-- C9 counterexample: a bare table placeholder and an uppercase ESC
modifier both expand to the raw unquoted table name, against the claim
that quoting is the default and modifiers are case-insensitive. -/
theorem table_placeholder_counterexample :
    sql_format "$table".toList itemA [':'] ['"'] = .ok ("items".toList, []) ∧
    sql_format "$table:ESC".toList itemA [':'] ['"'] = .ok ("items".toList, []) ∧
    "items".toList ≠ "\"items\"".toList := by decide

/-- C10: an item that is not an SQLItem is returned unchanged at once,
with no template expansion, no statement execution and no interaction
with the connection pool. -/
theorem process_item_non_sqlitem_passthrough :
    ∀ (insertT updateT : String) (ps idq : List Char) (t : Nat),
      process_item insertT updateT ps idq (.nonsql t) =
        (.ok (.passthrough (.nonsql t)), []) := by
  intro _ _ _ _ _
  rfl

/-! Lemmas about the scanner and the expansion loop. -/

lemma segsJoin_nil : segsJoin [] = [] := rfl

lemma segsJoin_cons (s : Seg) (tl : List Seg) :
    segsJoin (s :: tl) = segText s ++ segsJoin tl := by
  simp [segsJoin]

lemma length_dropWhile_le (p : Char → Bool) (l : List Char) :
    (l.dropWhile p).length ≤ l.length := by
  induction l with
  | nil => simp [List.dropWhile]
  | cons c rest ih =>
    rw [List.dropWhile_cons]
    split
    · exact Nat.le_trans ih (Nat.le_succ _)
    · exact Nat.le_refl _

/-- The scanner segments partition the template: concatenating the
texts of all segments gives back the template. -/
lemma scanGo_join : ∀ (fuel : Nat) (l : List Char), l.length < fuel →
    segsJoin (scanGo fuel l) = l := by
  intro fuel
  induction fuel with
  | zero => intro l h; exact absurd h (by omega)
  | succ fuel ih =>
    intro l h
    cases l with
    | nil => rfl
    | cons c rest =>
      have hrest : rest.length < fuel := by
        simpa using Nat.lt_of_succ_lt_succ h
      by_cases hc : c = '$'
      · subst hc
        by_cases hent : (rest.takeWhile isEntityChar).isEmpty
        · rw [show scanGo (fuel + 1) ('$' :: rest) = .lit '$' :: scanGo fuel rest by
            simp [scanGo, hent]]
          rw [segsJoin_cons, ih rest hrest]
          rfl
        · cases hdrop : rest.dropWhile isEntityChar with
          | nil =>
            rw [show scanGo (fuel + 1) ('$' :: rest) =
                .ph (rest.takeWhile isEntityChar) none :: scanGo fuel [] by
              simp [scanGo, hent, hdrop]]
            rw [segsJoin_cons]
            cases fuel with
            | zero => exact absurd hrest (by omega)
            | succ fuel2 =>
              simp only [scanGo, segsJoin_nil, segText, List.append_nil]
              rw [← List.takeWhile_append_dropWhile isEntityChar rest, hdrop,
                List.append_nil]
              congr 1
              exact List.takeWhile_eq_self_iff.mpr fun x hx =>
                List.mem_takeWhile_imp hx
          | cons d rest3 =>
            by_cases hd : d = ':'
            · subst hd
              by_cases hargs : (rest3.takeWhile isArgChar).isEmpty
              · have hlen : (':' :: rest3).length ≤ rest.length := by
                  rw [← hdrop]; exact length_dropWhile_le _ _
                rw [show scanGo (fuel + 1) ('$' :: rest) =
                    .ph (rest.takeWhile isEntityChar) none ::
                      scanGo fuel (':' :: rest3) by
                  simp [scanGo, hent, hdrop, hargs]]
                rw [segsJoin_cons, ih (':' :: rest3) (by omega)]
                simp only [segText, List.cons_append]
                congr 1
                rw [← hdrop]
                exact List.takeWhile_append_dropWhile isEntityChar rest
              · have hlen : (':' :: rest3).length ≤ rest.length := by
                  rw [← hdrop]; exact length_dropWhile_le _ _
                have hlen2 : (rest3.dropWhile isArgChar).length ≤ rest3.length :=
                  length_dropWhile_le _ _
                rw [show scanGo (fuel + 1) ('$' :: rest) =
                    .ph (rest.takeWhile isEntityChar)
                        (some (rest3.takeWhile isArgChar)) ::
                      scanGo fuel (rest3.dropWhile isArgChar) by
                  simp [scanGo, hent, hdrop, hargs]]
                rw [segsJoin_cons,
                  ih (rest3.dropWhile isArgChar) (by simp at hlen; omega)]
                simp only [segText, List.cons_append, List.append_assoc]
                congr 1
                rw [List.takeWhile_append_dropWhile isArgChar rest3, ← hdrop]
                exact List.takeWhile_append_dropWhile isEntityChar rest
            · have hlen : (d :: rest3).length ≤ rest.length := by
                rw [← hdrop]; exact length_dropWhile_le _ _
              rw [show scanGo (fuel + 1) ('$' :: rest) =
                  .ph (rest.takeWhile isEntityChar) none ::
                    scanGo fuel (d :: rest3) by
                simp [scanGo, hent, hdrop, hd]]
              rw [segsJoin_cons, ih (d :: rest3) (by omega)]
              simp only [segText, List.cons_append]
              congr 1
              rw [← hdrop]
              exact List.takeWhile_append_dropWhile isEntityChar rest
      · rw [show scanGo (fuel + 1) (c :: rest) = .lit c :: scanGo fuel rest by
          simp [scanGo, hc]]
        rw [segsJoin_cons, ih rest hrest]
        rfl

/-- The placeholder dispatch can only fail with the invalid entity
error, never with the missing identity error. -/
lemma evalEntity_ne_missing (ctx : ExpandCtx) (e args f : List Char) :
    evalEntity ctx e args ≠ .error (.missingIdentity f) := by
  simp only [evalEntity]
  split_ifs <;> simp

/-- The replacement loop never raises the missing identity error. -/
lemma sqlLoop_ne_missing (ctx : ExpandCtx) :
    ∀ (ms : List (List Char × Option (List Char))) (prepared : List Char)
      (acc : List SQLValue) (f : List Char),
      sqlLoop ctx ms prepared acc ≠ .error (.missingIdentity f) := by
  intro ms
  induction ms with
  | nil => intro prepared acc f; simp [sqlLoop]
  | cons m ms ih =>
    intro prepared acc f
    obtain ⟨e, a⟩ := m
    simp only [sqlLoop]
    split
    · rename_i err heq
      intro hcon
      injection hcon with h2
      exact evalEntity_ne_missing ctx e (a.getD []) f (h2 ▸ heq)
    · exact ih _ _ _

/-- C6 amended: for a record with a declared unique field lacking a
populated value, expansion fails with the missing identity error
exactly when the first six lowercased characters of the template do not
occur as a substring of the word select; when they do occur (as for
every template beginning with select, but also for templates such as
lect) the check is skipped and the missing identity error is never
raised. -/
theorem missing_identity_check :
    ∀ (query : List Char) (item : SQLRecord) (ps idq : List Char),
      (∃ u, (u, true) ∈ item.fields ∧ item.keys.contains u = false) →
      (isSubstrOf ((query.take 6).map pyLower) "select".toList = false →
        ∃ f, (f, true) ∈ item.fields ∧ item.keys.contains f = false ∧
          sql_format query item ps idq = .error (.missingIdentity f)) ∧
      (isSubstrOf ((query.take 6).map pyLower) "select".toList = true →
        ∀ f, sql_format query item ps idq ≠ .error (.missingIdentity f)) := by
  intro query item ps idq hu
  constructor
  · intro hsub
    obtain ⟨u, hufields, hukeys⟩ := hu
    have humem : u ∈ ((item.fields.filter Prod.snd).map Prod.fst).filter
        (fun v => !(item.keys.contains v)) := by
      rw [List.mem_filter]
      refine ⟨List.mem_map_of_mem Prod.fst (List.mem_filter.mpr ⟨hufields, rfl⟩), ?_⟩
      simpa using hukeys
    simp only [sql_format, hsub]
    cases hm : ((item.fields.filter Prod.snd).map Prod.fst).filter
        (fun v => !(item.keys.contains v)) with
    | nil => exact absurd (hm ▸ humem) (List.not_mem_nil u)
    | cons v vs =>
      have hv : v ∈ ((item.fields.filter Prod.snd).map Prod.fst).filter
          (fun v => !(item.keys.contains v)) := hm ▸ List.mem_cons_self v vs
      rw [List.mem_filter] at hv
      obtain ⟨hvmem, hvkeys⟩ := hv
      rw [List.mem_map] at hvmem
      obtain ⟨p, hpmem, hpfst⟩ := hvmem
      rw [List.mem_filter] at hpmem
      have hp : p = (v, true) := by
        obtain ⟨p1, p2⟩ := p
        simp only at hpfst
        simp only [hpfst]
        obtain ⟨_, h2⟩ := hpmem
        simp only at h2
        simp [h2]
      refine ⟨v, hp ▸ hpmem.1, by simpa using hvkeys, ?_⟩
      simp
  · intro hsub2 f
    simp only [sql_format, hsub2]
    exact sqlLoop_ne_missing _ _ _ _ _

/-- C6 witness: the amended statement applied to a record missing its
unique field value and the insert template, which is not select-like. -/
theorem missing_identity_check_witness :
    ∃ f, (f, true) ∈ itemM.fields ∧ itemM.keys.contains f = false ∧
      sql_format "INSERT INTO $table:esc ($fields) VALUES ($values)".toList itemM
        [':'] ['"'] = .error (.missingIdentity f) :=
  (missing_identity_check "INSERT INTO $table:esc ($fields) VALUES ($values)".toList
    itemM [':'] ['"'] ⟨"id".toList, by decide, by decide⟩).1 (by decide)

/-- When the missing identity check passes, _sql_format reduces to the
expansion loop over the scanned matches, with the context built from
the record. -/
lemma sql_format_go (query : List Char) (item : SQLRecord) (ps idq : List Char)
    (h : (if isSubstrOf ((query.take 6).map pyLower) "select".toList
          then ([] : List (List Char))
          else ((item.fields.filter Prod.snd).map Prod.fst).filter
            fun v => !(item.keys.contains v)) = []) :
    sql_format query item ps idq =
      sqlLoop
        { ps := ps
          idq := idq
          tablename := if item.tablename.isEmpty then item.className else item.tablename
          itemfields := item.keys.map (quoteId idq)
          itemkeys := (item.keys.filter fun k =>
            ((item.fields.filter Prod.snd).map Prod.fst).contains k).map (quoteId idq)
          vals := item.vals
          ivals := (item.entries.filter fun kv =>
            (item.keys.filter fun k =>
              ((item.fields.filter Prod.snd).map Prod.fst).contains k).contains kv.1).map
            Prod.snd }
        (phMatches (scanTemplate query)) query [] := by
  simp only [sql_format]
  rw [h]

lemma takeWhile_all_eq {p : Char → Bool} {l : List Char} (h : l.all p = true) :
    l.takeWhile p = l :=
  List.takeWhile_eq_self_iff.mpr (by simpa [List.all_eq_true] using h)

lemma dropWhile_all_eq {p : Char → Bool} {l : List Char} (h : l.all p = true) :
    l.dropWhile p = [] :=
  List.dropWhile_eq_nil_iff.mpr (by simpa [List.all_eq_true] using h)

lemma scanGo_nil : ∀ f : Nat, scanGo f ([] : List Char) = [] := by
  intro f; cases f <;> rfl

/-- The scanner step on a placeholder whose modifier run is nonempty. -/
lemma scanGo_ph_step (fuel : Nat) (rest rest3 : List Char)
    (hent : (rest.takeWhile isEntityChar).isEmpty = false)
    (hdrop : rest.dropWhile isEntityChar = ':' :: rest3)
    (hargs : (rest3.takeWhile isArgChar).isEmpty = false) :
    scanGo (fuel + 1) ('$' :: rest) =
      .ph (rest.takeWhile isEntityChar) (some (rest3.takeWhile isArgChar)) ::
        scanGo fuel (rest3.dropWhile isArgChar) := by
  simp [scanGo, hent, hdrop, hargs]

/-- Scanning a table placeholder followed by an arbitrary nonempty
modifier word yields exactly that one match. -/
lemma scan_table_mod (mod : List Char) (hne : mod ≠ [])
    (hall : mod.all isArgChar = true) :
    scanTemplate ("$table:".toList ++ mod) = [.ph "table".toList (some mod)] := by
  have hmodE : mod.isEmpty = false := by
    cases mod with
    | nil => exact absurd rfl hne
    | cons c cs => rfl
  have htw : List.takeWhile isEntityChar ('t' :: 'a' :: 'b' :: 'l' :: 'e' :: ':' :: mod) =
      "table".toList := by
    rw [List.takeWhile_cons_of_pos (by decide), List.takeWhile_cons_of_pos (by decide),
      List.takeWhile_cons_of_pos (by decide), List.takeWhile_cons_of_pos (by decide),
      List.takeWhile_cons_of_pos (by decide), List.takeWhile_cons_of_neg (by decide)]
    rfl
  have hdw : List.dropWhile isEntityChar ('t' :: 'a' :: 'b' :: 'l' :: 'e' :: ':' :: mod) =
      ':' :: mod := by
    rw [List.dropWhile_cons_of_pos (by decide), List.dropWhile_cons_of_pos (by decide),
      List.dropWhile_cons_of_pos (by decide), List.dropWhile_cons_of_pos (by decide),
      List.dropWhile_cons_of_pos (by decide), List.dropWhile_cons_of_neg (by decide)]
  have hatw : mod.takeWhile isArgChar = mod := takeWhile_all_eq hall
  have hadw : mod.dropWhile isArgChar = [] := dropWhile_all_eq hall
  show scanGo (("$table:".toList ++ mod).length + 1)
    ('$' :: ('t' :: 'a' :: 'b' :: 'l' :: 'e' :: ':' :: mod)) = [.ph "table".toList (some mod)]
  rw [scanGo_ph_step _ _ mod (by rw [htw]; rfl) hdw (by rw [hatw]; exact hmodE)]
  rw [htw, hatw, hadw, scanGo_nil]

/-- The replacement of a pattern that is the whole working string. -/
lemma replaceFirst_self (s repl : List Char) (h : s ≠ []) :
    replaceFirst s s repl = repl := by
  cases s with
  | nil => exact absurd rfl h
  | cons c rest =>
    rw [replaceFirst, if_pos (List.isPrefixOf_iff_prefix.mpr (List.prefix_refl _)),
      List.drop_length, List.append_nil]

/-- The expansion loop on a single successful match. -/
lemma sqlLoop_single_ok (ctx : ExpandCtx) (e : List Char) (a : Option (List Char))
    (prepared : List Char) (acc : List SQLValue) (field : List Char)
    (value : List SQLValue)
    (h : evalEntity ctx e (a.getD []) = .ok (field, value)) :
    sqlLoop ctx [(e, a)] prepared acc =
      .ok (replaceFirst prepared (matchText e a) field, acc ++ value) := by
  simp [sqlLoop, h]

/-- C9 amended: the table placeholder with no modifier expands to the
raw unquoted table name; a modifier whose first three characters are
exactly the lowercase letters esc expands to the quoted name; any other
modifier, including uppercase ESC, expands to the raw name; no
parameters are appended in any case. -/
theorem table_placeholder_behavior :
    ∀ mod : List Char, mod ≠ [] → mod.all isArgChar = true →
      sql_format ("$table:".toList ++ mod) itemA [':'] ['"'] =
        .ok (if mod.take 3 = "esc".toList then "\"items\"".toList
             else "items".toList, []) ∧
      sql_format "$table".toList itemA [':'] ['"'] = .ok ("items".toList, []) := by
  intro mod hne hall
  refine ⟨?_, by decide⟩
  have hpre : List.map pyLower (List.take 6 ("$table:".toList ++ mod)) =
      "$table".toList := rfl
  have hmiss : (if isSubstrOf ((("$table:".toList ++ mod).take 6).map pyLower)
        "select".toList then ([] : List (List Char))
      else ((itemA.fields.filter Prod.snd).map Prod.fst).filter
        fun v => !(itemA.keys.contains v)) = [] := by
    rw [show (("$table:".toList ++ mod).take 6).map pyLower = "$table".toList
      from hpre]
    decide
  rw [sql_format_go _ _ _ _ hmiss, scan_table_mod mod hne hall]
  have heval : ∀ ctx : ExpandCtx, evalEntity ctx "table".toList mod =
      .ok (if mod.take 3 = "esc".toList then quoteId ctx.idq ctx.tablename
           else ctx.tablename, []) := by
    intro ctx
    rw [evalEntity, if_pos rfl]
  rw [show phMatches [Seg.ph "table".toList (some mod)] =
    [("table".toList, some mod)] from rfl]
  rw [sqlLoop_single_ok _ _ _ _ _ _ _ (by rw [Option.getD_some]; exact heval _)]
  rw [show ("$table:".toList ++ mod) = matchText "table".toList (some mod) from rfl]
  rw [replaceFirst_self _ _ (by simp [matchText, segText])]
  by_cases hm3 : mod.take 3 = "esc".toList
  · rw [if_pos hm3, if_pos hm3]
    decide
  · rw [if_neg hm3, if_neg hm3]
    decide

/-- C9 witness: the amended statement applied to the uppercase ESC
modifier, showing the modifier comparison is case sensitive. -/
theorem table_placeholder_behavior_witness :
    sql_format ("$table:".toList ++ "ESC".toList) itemA [':'] ['"'] =
      .ok (if "ESC".toList.take 3 = "esc".toList then "\"items\"".toList
           else "items".toList, []) ∧
    sql_format "$table".toList itemA [':'] ['"'] = .ok ("items".toList, []) :=
  table_placeholder_behavior "ESC".toList (by decide) (by decide)

/-! Marker counting: the parameter count invariant of _sql_format. -/

/-- A character is clean for a marker character psc when it is neither
the placeholder dollar nor psc itself. -/
def charClean (psc c : Char) : Bool := (c != '$') && (c != psc)

/-- All characters of a string are clean. -/
def strClean (psc : Char) (s : List Char) : Bool := s.all (charClean psc)

/-- A scanned segment is clean when its literal text is clean and its
modifier word remains clean after uppercasing. -/
def segClean (psc : Char) : Seg → Bool
  | .lit c => charClean psc c
  | .ph _ none => true
  | .ph _ (some a) => (a.map pyUpper).all (charClean psc)

/-- Every segment of the scanned template is clean. -/
def templateClean (psc : Char) (q : List Char) : Bool :=
  (scanTemplate q).all (segClean psc)

/-- The table name, class name and populated field names of a record
are clean. -/
def recordClean (psc : Char) (r : SQLRecord) : Bool :=
  strClean psc r.tablename && strClean psc r.className &&
    r.keys.all (strClean psc)

/-- A marker character that cannot collide with the punctuation the
expansion itself inserts: not a digit, not a space, comma or equals
sign. -/
def pscOK (psc : Char) : Bool :=
  !psc.isDigit && (psc != ' ') && (psc != ',') && (psc != '=')

/-- Direct segment-wise expansion: literal characters pass through, and
each placeholder contributes its replacement text and appended values
in segment order. -/
def expandSegs (ctx : ExpandCtx) :
    List Seg → Except SQLError (List Char × List SQLValue)
  | [] => .ok ([], [])
  | .lit c :: rest =>
    match expandSegs ctx rest with
    | .error err => .error err
    | .ok (s, vs) => .ok (c :: s, vs)
  | .ph e a :: rest =>
    match evalEntity ctx e (a.getD []) with
    | .error err => .error err
    | .ok (field, value) =>
      match expandSegs ctx rest with
      | .error err => .error err
      | .ok (s, vs) => .ok (field ++ s, value ++ vs)

/-- Prepending already processed text and values to an expansion
result. -/
def shiftRes (done : List Char) (acc : List SQLValue) :
    Except SQLError (List Char × List SQLValue) →
      Except SQLError (List Char × List SQLValue)
  | .ok (s, vs) => .ok (done ++ s, acc ++ vs)
  | .error e => .error e

/-- Cleanliness of an expansion context for a marker character. -/
structure CtxOK (psc : Char) (ctx : ExpandCtx) : Prop where
  tclean : strClean psc ctx.tablename = true
  iclean : strClean psc ctx.idq = true
  fclean : ∀ f ∈ ctx.itemfields, strClean psc f = true
  kclean : ∀ k ∈ ctx.itemkeys, strClean psc k = true
  pcount : ctx.ps.count psc = 1
  pdollar : '$' ∉ ctx.ps
  pok : pscOK psc = true
  vlen : ctx.vals.length = ctx.itemfields.length
  ivlen : ctx.ivals.length = ctx.itemkeys.length

lemma strClean_count {psc : Char} {s : List Char} (h : strClean psc s = true) :
    s.count psc = 0 := by
  rw [List.count_eq_zero]
  intro hmem
  have h2 := (List.all_eq_true.mp h) psc hmem
  simp [charClean] at h2

lemma strClean_dollar {psc : Char} {s : List Char} (h : strClean psc s = true) :
    '$' ∉ s := by
  intro hmem
  have h2 := (List.all_eq_true.mp h) '$' hmem
  simp [charClean] at h2

lemma strClean_append {psc : Char} {a b : List Char} (ha : strClean psc a = true)
    (hb : strClean psc b = true) : strClean psc (a ++ b) = true := by
  simp only [strClean, List.all_append, Bool.and_eq_true]
  exact And.intro ha hb

lemma natDigsGo_digits : ∀ (fuel n : Nat) (acc : List Char),
    (∀ c ∈ acc, c.isDigit = true) → ∀ c ∈ natDigsGo fuel n acc, c.isDigit = true := by
  intro fuel
  induction fuel with
  | zero => intro n acc hacc c hc; exact hacc c hc
  | succ fuel ih =>
    intro n acc hacc c hc
    have hdig : (Char.ofNat (48 + n % 10)).isDigit = true := by
      have h10 : n % 10 < 10 := Nat.mod_lt _ (by omega)
      revert h10
      generalize n % 10 = m
      intro h10
      interval_cases m <;> decide
    rw [natDigsGo] at hc
    split at hc
    · rcases List.mem_cons.mp hc with h | h
      · rw [h]; exact hdig
      · exact hacc c h
    · refine ih _ _ ?_ c hc
      intro c2 hc2
      rcases List.mem_cons.mp hc2 with h | h
      · rw [h]; exact hdig
      · exact hacc c2 h

lemma natDigs_digits (n : Nat) : ∀ c ∈ natDigs n, c.isDigit = true :=
  natDigsGo_digits _ _ [] (by simp)

lemma paramformat_count {psc : Char} {ps : List Char} (hc : ps.count psc = 1)
    (hd : psc.isDigit = false) (i : Nat) : (paramformat ps i).count psc = 1 := by
  rw [paramformat]
  split
  · exact hc
  · rw [List.count_append, hc]
    have hz : (natDigs i).count psc = 0 := by
      rw [List.count_eq_zero]
      intro hmem
      have := natDigs_digits i psc hmem
      rw [this] at hd
      exact absurd hd (by simp)
    rw [hz]

lemma paramformat_dollar {ps : List Char} (hd : '$' ∉ ps) (i : Nat) :
    '$' ∉ paramformat ps i := by
  rw [paramformat]
  split
  · exact hd
  · intro hmem
    rcases List.mem_append.mp hmem with h | h
    · exact hd h
    · have := natDigs_digits i '$' h
      exact absurd this (by decide)

lemma joinSep_count_zero (psc : Char) (sep : List Char) :
    ∀ parts : List (List Char), sep.count psc = 0 →
      (∀ p ∈ parts, p.count psc = 0) → (joinSep sep parts).count psc = 0 := by
  intro parts
  induction parts with
  | nil => intro _ _; rfl
  | cons x xs ih =>
    intro hsep hp
    cases xs with
    | nil => exact hp x (by simp)
    | cons y ys =>
      simp only [joinSep, List.count_append]
      rw [hsep, hp x (by simp), ih hsep fun p hp2 => hp p (List.mem_cons_of_mem _ hp2)]

lemma joinSep_count_one (psc : Char) (sep : List Char) :
    ∀ parts : List (List Char), sep.count psc = 0 →
      (∀ p ∈ parts, p.count psc = 1) →
      (joinSep sep parts).count psc = parts.length := by
  intro parts
  induction parts with
  | nil => intro _ _; rfl
  | cons x xs ih =>
    intro hsep hp
    cases xs with
    | nil => exact hp x (by simp)
    | cons y ys =>
      simp only [joinSep, List.count_append]
      rw [hsep, hp x (by simp), ih hsep fun p hp2 => hp p (List.mem_cons_of_mem _ hp2)]
      simp [List.length_cons]
      omega

lemma joinSep_mem (sep : List Char) :
    ∀ (parts : List (List Char)) (c : Char), c ∈ joinSep sep parts →
      c ∈ sep ∨ ∃ p ∈ parts, c ∈ p := by
  intro parts
  induction parts with
  | nil => intro c hc; exact absurd hc (List.not_mem_nil c)
  | cons x xs ih =>
    intro c hc
    cases xs with
    | nil => exact Or.inr ⟨x, by simp, hc⟩
    | cons y ys =>
      simp only [joinSep, List.mem_append] at hc
      rcases hc with (h | h) | h
      · exact Or.inr ⟨x, by simp, h⟩
      · exact Or.inl h
      · rcases ih c h with h2 | ⟨p, hp, hcp⟩
        · exact Or.inl h2
        · exact Or.inr ⟨p, List.mem_cons_of_mem _ hp, hcp⟩

lemma withIdx_length : ∀ (l : List α) (i : Nat), (withIdx i l).length = l.length := by
  intro l
  induction l with
  | nil => intro i; rfl
  | cons x xs ih => intro i; simp [withIdx, ih]

lemma withIdx_mem : ∀ (l : List α) (i : Nat) (p : Nat × α),
    p ∈ withIdx i l → p.2 ∈ l := by
  intro l
  induction l with
  | nil => intro i p hp; exact absurd hp (List.not_mem_nil p)
  | cons x xs ih =>
    intro i p hp
    rcases List.mem_cons.mp hp with h | h
    · rw [h]; exact List.mem_cons_self x xs
    · exact List.mem_cons_of_mem _ (ih _ p h)

lemma joinAttr_count {psc : Char} (pok : pscOK psc = true) {args : List Char}
    (hargs : (args.map pyUpper).all (charClean psc) = true) :
    (joinAttr args).count psc = 0 := by
  have hp := pok
  simp only [pscOK, Bool.and_eq_true, bne_iff_ne, Bool.not_eq_true'] at hp
  rw [List.count_eq_zero, joinAttr]
  split
  · intro hmem
    rw [List.mem_singleton] at hmem
    exact hp.1.2 hmem
  · intro hmem
    rcases List.mem_append.mp hmem with h | h
    · rcases List.mem_cons.mp h with h2 | h2
      · exact hp.1.1.2 h2
      · have h3 := (List.all_eq_true.mp hargs) psc h2
        simp [charClean] at h3
    · rw [List.mem_singleton] at h
      exact hp.1.1.2 h

lemma joinAttr_dollar {args : List Char}
    (hargs : ∀ c ∈ args.map pyUpper, c ≠ '$') : '$' ∉ joinAttr args := by
  rw [joinAttr]
  split
  · intro hmem
    rw [List.mem_singleton] at hmem
    exact absurd hmem (by decide)
  · intro hmem
    rcases List.mem_append.mp hmem with h | h
    · rcases List.mem_cons.mp h with h2 | h2
      · exact absurd h2 (by decide)
      · exact hargs _ h2 rfl
    · rw [List.mem_singleton] at h
      exact absurd h (by decide)

lemma quoteId_clean {psc : Char} {idq s : List Char}
    (hidq : strClean psc idq = true) (hs : strClean psc s = true) :
    strClean psc (quoteId idq s) = true :=
  strClean_append (strClean_append hidq hs) hidq

lemma pair_count {psc : Char} (hd : psc.isDigit = false) (heq : psc ≠ '=')
    {ps k : List Char} (hc : ps.count psc = 1) (hk : strClean psc k = true)
    (i : Nat) : (k ++ '=' :: paramformat ps i).count psc = 1 := by
  have hne : ¬(('=' == psc) = true) := by
    simp only [beq_iff_eq]
    exact fun hh => heq hh.symm
  rw [List.count_append, strClean_count hk, List.count_cons,
    paramformat_count hc hd i, if_neg hne]

lemma pair_dollar {psc : Char} {ps k : List Char} (hps : '$' ∉ ps)
    (hk : strClean psc k = true) (i : Nat) :
    '$' ∉ k ++ '=' :: paramformat ps i := by
  intro hmem
  rcases List.mem_append.mp hmem with h | h
  · exact strClean_dollar hk h
  · rcases List.mem_cons.mp h with h2 | h2
    · exact absurd h2 (by decide)
    · exact paramformat_dollar hps i h2

/-- Every successful placeholder dispatch on a clean context yields
replacement text free of dollars whose marker count equals the number
of values it appends. -/
lemma evalEntity_ok {psc : Char} {ctx : ExpandCtx} (hctx : CtxOK psc ctx)
    (e args : List Char) (hargs : (args.map pyUpper).all (charClean psc) = true)
    (field : List Char) (value : List SQLValue)
    (h : evalEntity ctx e args = .ok (field, value)) :
    ('$' ∉ field) ∧ field.count psc = value.length := by
  have hargsD : ∀ c ∈ args.map pyUpper, c ≠ '$' := by
    intro c hc
    have h2 := (List.all_eq_true.mp hargs) c hc
    simp only [charClean, Bool.and_eq_true, bne_iff_ne] at h2
    exact h2.1
  have hpok := hctx.pok
  simp only [pscOK, Bool.and_eq_true, bne_iff_ne, Bool.not_eq_true'] at hpok
  have hdig : psc.isDigit = false := hpok.1.1.1
  have heqs : psc ≠ '=' := hpok.2
  rw [evalEntity] at h
  by_cases he1 : e = "table".toList
  · rw [if_pos he1, Except.ok.injEq, Prod.mk.injEq] at h
    obtain ⟨hf, hv⟩ := h
    subst hf
    subst hv
    have hfc : strClean psc
        (if args.take 3 = "esc".toList then quoteId ctx.idq ctx.tablename
         else ctx.tablename) = true := by
      split
      · exact quoteId_clean hctx.iclean hctx.tclean
      · exact hctx.tclean
    exact ⟨strClean_dollar hfc, by rw [strClean_count hfc]; rfl⟩
  rw [if_neg he1] at h
  by_cases he2 : e = "fields".toList
  · rw [if_pos he2, Except.ok.injEq, Prod.mk.injEq] at h
    obtain ⟨hf, hv⟩ := h
    subst hf
    subst hv
    constructor
    · intro hmem
      rcases joinSep_mem _ _ _ hmem with hs | ⟨p, hp, hcp⟩
      · exact joinAttr_dollar hargsD hs
      · exact strClean_dollar (hctx.fclean p hp) hcp
    · rw [joinSep_count_zero psc _ _ (joinAttr_count hctx.pok hargs)
        fun p hp => strClean_count (hctx.fclean p hp)]
      rfl
  rw [if_neg he2] at h
  by_cases he3 : e = "values".toList
  · rw [if_pos he3, Except.ok.injEq, Prod.mk.injEq] at h
    obtain ⟨hf, hv⟩ := h
    subst hf
    subst hv
    constructor
    · intro hmem
      rcases joinSep_mem _ _ _ hmem with hs | ⟨p, hp, hcp⟩
      · exact joinAttr_dollar hargsD hs
      · obtain ⟨q, hq, hqp⟩ := List.mem_map.mp hp
        rw [← hqp] at hcp
        exact paramformat_dollar hctx.pdollar q.1 hcp
    · rw [joinSep_count_one psc _ _ (joinAttr_count hctx.pok hargs) ?_]
      · rw [List.length_map, withIdx_length, hctx.vlen]
      · intro p hp
        obtain ⟨q, hq, hqp⟩ := List.mem_map.mp hp
        rw [← hqp]
        exact paramformat_count hctx.pcount hdig q.1
  rw [if_neg he3] at h
  by_cases he4 : e = "fields_values".toList
  · rw [if_pos he4, Except.ok.injEq, Prod.mk.injEq] at h
    obtain ⟨hf, hv⟩ := h
    subst hf
    subst hv
    constructor
    · intro hmem
      rcases joinSep_mem _ _ _ hmem with hs | ⟨p, hp, hcp⟩
      · exact joinAttr_dollar hargsD hs
      · obtain ⟨q, hq, hqp⟩ := List.mem_map.mp hp
        rw [← hqp] at hcp
        exact pair_dollar hctx.pdollar
          (hctx.fclean q.2 (withIdx_mem _ _ _ hq)) q.1 hcp
    · rw [joinSep_count_one psc _ _ (joinAttr_count hctx.pok hargs) ?_]
      · rw [List.length_map, withIdx_length, hctx.vlen]
      · intro p hp
        obtain ⟨q, hq, hqp⟩ := List.mem_map.mp hp
        rw [← hqp]
        exact pair_count hdig heqs hctx.pcount
          (hctx.fclean q.2 (withIdx_mem _ _ _ hq)) q.1
  rw [if_neg he4] at h
  by_cases he5 : e = "indices".toList ∨ e = "indexes".toList
  · rw [if_pos he5, Except.ok.injEq, Prod.mk.injEq] at h
    obtain ⟨hf, hv⟩ := h
    subst hf
    subst hv
    constructor
    · intro hmem
      rcases joinSep_mem _ _ _ hmem with hs | ⟨p, hp, hcp⟩
      · exact joinAttr_dollar hargsD hs
      · obtain ⟨q, hq, hqp⟩ := List.mem_map.mp hp
        rw [← hqp] at hcp
        exact pair_dollar hctx.pdollar
          (hctx.kclean q.2 (withIdx_mem _ _ _ hq)) q.1 hcp
    · rw [joinSep_count_one psc _ _ (joinAttr_count hctx.pok hargs) ?_]
      · rw [List.length_map, withIdx_length, hctx.ivlen]
      · intro p hp
        obtain ⟨q, hq, hqp⟩ := List.mem_map.mp hp
        rw [← hqp]
        exact pair_count hdig heqs hctx.pcount
          (hctx.kclean q.2 (withIdx_mem _ _ _ hq)) q.1
  · rw [if_neg he5] at h
    exact absurd h (by simp)

/-- When the processed prefix contains no dollar and the pattern starts
with one, the leftmost occurrence of the pattern sits exactly at the
boundary, so the single replacement splices there. -/
lemma replaceFirst_boundary (pat : List Char) :
    ∀ (done tail repl : List Char), (∀ c ∈ done, c ≠ '$') →
      (∃ pt, pat = '$' :: pt) →
      replaceFirst (done ++ (pat ++ tail)) pat repl = done ++ (repl ++ tail) := by
  intro done
  induction done with
  | nil =>
    intro tail repl _ hp
    obtain ⟨pt, hpt⟩ := hp
    subst hpt
    simp only [List.nil_append, List.cons_append]
    rw [replaceFirst,
      if_pos (List.isPrefixOf_iff_prefix.mpr ⟨tail, by simp⟩)]
    rw [show ('$' :: pt).length = pt.length + 1 from rfl, List.drop_succ_cons,
      List.drop_left]
  | cons d ds ih =>
    intro tail repl hd hp
    obtain ⟨pt, hpt⟩ := hp
    have hd0 : d ≠ '$' := hd d (List.mem_cons_self d ds)
    rw [List.cons_append, replaceFirst, if_neg ?hn]
    · rw [ih tail repl (fun c hc => hd c (List.mem_cons_of_mem _ hc)) ⟨pt, hpt⟩]
      rfl
    case hn =>
      intro hcon
      rw [List.isPrefixOf_iff_prefix, hpt] at hcon
      have := (List.cons_prefix_cons.mp hcon).1
      exact hd0 this.symm

/-- Marker counting for the direct segment expansion: the statement
text holds exactly one marker occurrence per appended value. -/
lemma expandSegs_count {psc : Char} {ctx : ExpandCtx} (hctx : CtxOK psc ctx) :
    ∀ segs : List Seg, (∀ s ∈ segs, segClean psc s = true) →
      ∀ stmt params, expandSegs ctx segs = .ok (stmt, params) →
        stmt.count psc = params.length := by
  intro segs
  induction segs with
  | nil =>
    intro _ stmt params h
    rw [expandSegs, Except.ok.injEq, Prod.mk.injEq] at h
    obtain ⟨hs, hp⟩ := h
    rw [← hs, ← hp]
    rfl
  | cons s rest ih =>
    intro hclean stmt params h
    have hrestclean : ∀ s2 ∈ rest, segClean psc s2 = true :=
      fun s2 hs2 => hclean s2 (List.mem_cons_of_mem _ hs2)
    cases s with
    | lit c =>
      rw [expandSegs] at h
      cases hrec : expandSegs ctx rest with
      | error err => rw [hrec] at h; exact absurd h (by simp)
      | ok pr =>
        obtain ⟨s2, vs⟩ := pr
        rw [hrec] at h
        rw [Except.ok.injEq, Prod.mk.injEq] at h
        obtain ⟨hs, hp⟩ := h
        rw [← hs, ← hp, List.count_cons, ih hrestclean s2 vs hrec]
        have hcc := hclean (.lit c) (List.mem_cons_self _ _)
        simp only [segClean, charClean, Bool.and_eq_true, bne_iff_ne] at hcc
        rw [if_neg (by simp only [beq_iff_eq]; exact fun hh => hcc.2 hh)]
        omega
    | ph e a =>
      rw [expandSegs] at h
      cases heval : evalEntity ctx e (a.getD []) with
      | error err => rw [heval] at h; exact absurd h (by simp)
      | ok fv =>
        obtain ⟨field, value⟩ := fv
        rw [heval] at h
        cases hrec : expandSegs ctx rest with
        | error err => rw [hrec] at h; exact absurd h (by simp)
        | ok pr =>
          obtain ⟨s2, vs⟩ := pr
          rw [hrec] at h
          rw [Except.ok.injEq, Prod.mk.injEq] at h
          obtain ⟨hs, hp⟩ := h
          have hargs : ((a.getD []).map pyUpper).all (charClean psc) = true := by
            cases a with
            | none => rfl
            | some x => exact hclean (.ph e (some x)) (List.mem_cons_self _ _)
          have hev := evalEntity_ok hctx e (a.getD []) hargs field value heval
          rw [← hs, ← hp, List.count_append, hev.2, ih hrestclean s2 vs hrec,
            List.length_append]

/-- The loop step on a match whose dispatch succeeds. -/
lemma sqlLoop_cons_ok (ctx : ExpandCtx) (e : List Char) (a : Option (List Char))
    (ms : List (List Char × Option (List Char))) (prepared : List Char)
    (acc : List SQLValue) (field : List Char) (value : List SQLValue)
    (h : evalEntity ctx e (a.getD []) = .ok (field, value)) :
    sqlLoop ctx ((e, a) :: ms) prepared acc =
      sqlLoop ctx ms (replaceFirst prepared (matchText e a) field)
        (acc ++ value) := by
  simp [sqlLoop, h]

/-- The loop step on a match whose dispatch fails. -/
lemma sqlLoop_cons_err (ctx : ExpandCtx) (e : List Char) (a : Option (List Char))
    (ms : List (List Char × Option (List Char))) (prepared : List Char)
    (acc : List SQLValue) (err : SQLError)
    (h : evalEntity ctx e (a.getD []) = .error err) :
    sqlLoop ctx ((e, a) :: ms) prepared acc = .error err := by
  simp [sqlLoop, h]

/-- The direct expansion step on a successful dispatch. -/
lemma expandSegs_ph_ok (ctx : ExpandCtx) (e : List Char) (a : Option (List Char))
    (rest : List Seg) (field : List Char) (value : List SQLValue)
    (h : evalEntity ctx e (a.getD []) = .ok (field, value)) :
    expandSegs ctx (.ph e a :: rest) =
      match expandSegs ctx rest with
      | .error err => .error err
      | .ok (s, vs) => .ok (field ++ s, value ++ vs) := by
  simp [expandSegs, h]

/-- The replacement loop of _sql_format computes the direct segment
expansion: since processed text never contains a dollar, each single
replacement lands exactly on its own match. -/
lemma sqlLoop_eq_expandSegs {psc : Char} {ctx : ExpandCtx} (hctx : CtxOK psc ctx) :
    ∀ segs : List Seg, (∀ s ∈ segs, segClean psc s = true) →
      ∀ (done : List Char) (acc : List SQLValue), (∀ c ∈ done, c ≠ '$') →
        sqlLoop ctx (phMatches segs) (done ++ segsJoin segs) acc =
          shiftRes done acc (expandSegs ctx segs) := by
  intro segs
  induction segs with
  | nil =>
    intro _ done acc _
    simp [phMatches, sqlLoop, expandSegs, shiftRes, segsJoin]
  | cons s rest ih =>
    intro hclean done acc hdone
    have hrestclean : ∀ s2 ∈ rest, segClean psc s2 = true :=
      fun s2 hs2 => hclean s2 (List.mem_cons_of_mem _ hs2)
    cases s with
    | lit c =>
      have hc : c ≠ '$' := by
        have hcc := hclean (.lit c) (List.mem_cons_self _ _)
        simp only [segClean, charClean, Bool.and_eq_true, bne_iff_ne] at hcc
        exact hcc.1
      have hstep : done ++ segsJoin (Seg.lit c :: rest) =
          (done ++ [c]) ++ segsJoin rest := by
        rw [segsJoin_cons]
        simp [segText]
      rw [show phMatches (Seg.lit c :: rest) = phMatches rest by
          simp [phMatches], hstep,
        ih hrestclean (done ++ [c]) acc ?hd1]
      case hd1 =>
        intro c2 hc2
        rcases List.mem_append.mp hc2 with h | h
        · exact hdone c2 h
        · rw [List.mem_singleton] at h
          rw [h]
          exact hc
      rw [expandSegs]
      cases hrec : expandSegs ctx rest with
      | error err => rfl
      | ok pr =>
        obtain ⟨s2, vs⟩ := pr
        simp [shiftRes]
    | ph e a =>
      rw [show phMatches (Seg.ph e a :: rest) = (e, a) :: phMatches rest by
        simp [phMatches]]
      rw [segsJoin_cons]
      cases heval : evalEntity ctx e (a.getD []) with
      | error err =>
        rw [sqlLoop_cons_err ctx e a _ _ _ _ heval, expandSegs, heval]
        rfl
      | ok fv =>
        obtain ⟨field, value⟩ := fv
        rw [sqlLoop_cons_ok ctx e a _ _ _ _ _ heval]
        have hargs : ((a.getD []).map pyUpper).all (charClean psc) = true := by
          cases a with
          | none => rfl
          | some x => exact hclean (.ph e (some x)) (List.mem_cons_self _ _)
        have hev := evalEntity_ok hctx e (a.getD []) hargs field value heval
        have hbound : replaceFirst (done ++ (segText (.ph e a) ++ segsJoin rest))
            (matchText e a) field = done ++ (field ++ segsJoin rest) := by
          refine replaceFirst_boundary _ done (segsJoin rest) field hdone ?_
          cases a with
          | none => exact ⟨e, rfl⟩
          | some x => exact ⟨e ++ ':' :: x, rfl⟩
        rw [hbound]
        have hstep : done ++ (field ++ segsJoin rest) =
            (done ++ field) ++ segsJoin rest := by
          rw [List.append_assoc]
        rw [hstep, ih hrestclean (done ++ field) (acc ++ value) ?hd2]
        case hd2 =>
          intro c2 hc2
          rcases List.mem_append.mp hc2 with h | h
          · exact hdone c2 h
          · intro hcon
            rw [hcon] at h
            exact hev.1 h
        rw [expandSegs_ph_ok ctx e a rest field value heval]
        cases hrec : expandSegs ctx rest with
        | error err => rfl
        | ok pr =>
          obtain ⟨s2, vs⟩ := pr
          simp [shiftRes, List.append_assoc]

/-- Length agreement between the unique value slice and the escaped
index list of the context _sql_format builds. -/
lemma ivlen_aux (item : SQLRecord) (idq : List Char) :
    ((item.entries.filter fun kv =>
      (item.keys.filter fun k =>
        ((item.fields.filter Prod.snd).map Prod.fst).contains k).contains kv.1).map
      Prod.snd).length =
    ((item.keys.filter fun k =>
      ((item.fields.filter Prod.snd).map Prod.fst).contains k).map
      (quoteId idq)).length := by
  rw [List.length_map, List.length_map]
  have hcongr : item.entries.filter (fun kv =>
      (item.keys.filter fun k =>
        ((item.fields.filter Prod.snd).map Prod.fst).contains k).contains kv.1) =
    item.entries.filter (fun kv =>
      ((item.fields.filter Prod.snd).map Prod.fst).contains kv.1) := by
    apply List.filter_congr
    intro kv hkv
    have hk : kv.1 ∈ item.keys := List.mem_map_of_mem Prod.fst hkv
    cases hq0 : ((item.fields.filter Prod.snd).map Prod.fst).contains kv.1 with
    | true => exact List.elem_iff.mpr (List.mem_filter.mpr ⟨hk, hq0⟩)
    | false =>
      cases hc2 : (item.keys.filter fun k =>
          ((item.fields.filter Prod.snd).map Prod.fst).contains k).contains kv.1 with
      | false => rfl
      | true =>
        have hbad := (List.mem_filter.mp (List.elem_iff.mp hc2)).2
        rw [hq0] at hbad
        exact absurd hbad (by simp)
  rw [hcongr]
  have hmapfilter : item.keys.filter (fun k =>
      ((item.fields.filter Prod.snd).map Prod.fst).contains k) =
    (item.entries.filter (fun kv =>
      ((item.fields.filter Prod.snd).map Prod.fst).contains kv.1)).map Prod.fst := by
    simp only [SQLRecord.keys]
    rw [List.filter_map]
    rfl
  rw [hmapfilter, List.length_map]

/-- The context _sql_format builds from a clean record, identifier and
style is clean. -/
lemma ctxOK_of_clean (psc : Char) (item : SQLRecord) (ps idq : List Char)
    (hcount : ps.count psc = 1) (hdollar : '$' ∉ ps) (hpok : pscOK psc = true)
    (hitem : recordClean psc item = true) (hidq : strClean psc idq = true) :
    CtxOK psc
      { ps := ps
        idq := idq
        tablename := if item.tablename.isEmpty then item.className
          else item.tablename
        itemfields := item.keys.map (quoteId idq)
        itemkeys := (item.keys.filter fun k =>
          ((item.fields.filter Prod.snd).map Prod.fst).contains k).map (quoteId idq)
        vals := item.vals
        ivals := (item.entries.filter fun kv =>
          (item.keys.filter fun k =>
            ((item.fields.filter Prod.snd).map Prod.fst).contains k).contains
              kv.1).map Prod.snd } := by
  have hrec := hitem
  simp only [recordClean, Bool.and_eq_true, List.all_eq_true] at hrec
  refine ⟨?_, hidq, ?_, ?_, hcount, hdollar, hpok, ?_, ?_⟩
  · show strClean psc (if item.tablename.isEmpty then item.className
      else item.tablename) = true
    split
    · exact hrec.1.2
    · exact hrec.1.1
  · intro f hf
    obtain ⟨k, hk, hkeq⟩ := List.mem_map.mp hf
    rw [← hkeq]
    exact quoteId_clean hidq (hrec.2 k hk)
  · intro k hk
    obtain ⟨k2, hk2, hkeq⟩ := List.mem_map.mp hk
    rw [← hkeq]
    exact quoteId_clean hidq (hrec.2 k2 (List.mem_filter.mp hk2).1)
  · simp [SQLRecord.vals, SQLRecord.keys]
  · exact ivlen_aux item idq

/-- Marker counting carried through the trivial shift of an empty
prefix. -/
lemma count_from_shift {psc : Char} {ctx : ExpandCtx} (hctx : CtxOK psc ctx)
    (segs : List Seg) (hsegs : ∀ s ∈ segs, segClean psc s = true)
    (stmt : List Char) (params : List SQLValue)
    (h : shiftRes [] [] (expandSegs ctx segs) = .ok (stmt, params)) :
    stmt.count psc = params.length := by
  cases hexp : expandSegs ctx segs with
  | error err => rw [hexp] at h; exact absurd h (by simp [shiftRes])
  | ok pr =>
    obtain ⟨s2, vs2⟩ := pr
    rw [hexp] at h
    simp only [shiftRes, List.nil_append] at h
    rw [Except.ok.injEq, Prod.mk.injEq] at h
    obtain ⟨hs, hp⟩ := h
    rw [← hs, ← hp]
    exact expandSegs_count hctx _ hsegs s2 vs2 hexp

/-- C8: for every template and record expanded with one of the deployed
parameter styles, when the template, identifiers and field names are
free of stray marker and dollar characters, the number of parameter
markers in the returned statement, counted by the leading character of
the style, equals the length of the returned parameter list. -/
theorem sql_format_marker_count :
    ∀ (query : List Char) (item : SQLRecord) (ps idq : List Char),
      (ps = ":".toList ∨ ps = "%s".toList ∨ ps = "?".toList) →
      templateClean (ps.headD '?') query = true →
      recordClean (ps.headD '?') item = true →
      strClean (ps.headD '?') idq = true →
      ∀ stmt params, sql_format query item ps idq = .ok (stmt, params) →
        stmt.count (ps.headD '?') = params.length := by
  intro query item ps idq hps hq hitem hidq stmt params h
  have hfacts : ps.count (ps.headD '?') = 1 ∧ '$' ∉ ps ∧
      pscOK (ps.headD '?') = true := by
    rcases hps with h1 | h1 | h1 <;> subst h1 <;>
      exact ⟨by decide, by decide, by decide⟩
  cases hm : (if isSubstrOf ((query.take 6).map pyLower) "select".toList
      then ([] : List (List Char))
      else ((item.fields.filter Prod.snd).map Prod.fst).filter
        fun v => !(item.keys.contains v)) with
  | cons v vs =>
    have herr : sql_format query item ps idq = .error (.missingIdentity v) := by
      simp only [sql_format]
      rw [hm]
    rw [herr] at h
    exact absurd h (by simp)
  | nil =>
    rw [sql_format_go query item ps idq hm] at h
    have hctx := ctxOK_of_clean (ps.headD '?') item ps idq hfacts.1 hfacts.2.1
      hfacts.2.2 hitem hidq
    have hsegs : ∀ s ∈ scanTemplate query, segClean (ps.headD '?') s = true := by
      have h2 := hq
      simp only [templateClean, List.all_eq_true] at h2
      exact h2
    have hj : segsJoin (scanTemplate query) = query := by
      unfold scanTemplate
      exact scanGo_join _ _ (Nat.lt_succ_self _)
    nth_rewrite 2 [← hj] at h
    rw [show segsJoin (scanTemplate query) = [] ++ segsJoin (scanTemplate query)
      from (List.nil_append _).symm] at h
    rw [sqlLoop_eq_expandSegs hctx (scanTemplate query) hsegs [] [] (by simp)] at h
    exact count_from_shift hctx _ hsegs stmt params h

/-- C8 witness: the invariant applied to the insert scenario, whose
statement holds two colon markers for its two parameters. -/
theorem sql_format_marker_count_witness :
    templateClean ':' "INSERT INTO $table:esc ($fields) VALUES ($values)".toList
        = true ∧
    "INSERT INTO \"items\" (\"id\",\"name\") VALUES (:0,:1)".toList.count ':' = 2 := by
  refine ⟨by decide, ?_⟩
  exact sql_format_marker_count
    "INSERT INTO $table:esc ($fields) VALUES ($values)".toList itemA [':'] ['"']
    (Or.inl rfl) (by decide) (by decide) (by decide)
    "INSERT INTO \"items\" (\"id\",\"name\") VALUES (:0,:1)".toList
    [.vint 1, .vstr "x"] (by decide)
